import Mathlib

/-!
# Verification of the SaucerSwap python SDK

Shallow embedding of the repository's address codec, path encoder and the
two swap engines, together with proofs about the claims of the
specification.  External effects (RPC calls, signing, broadcasting,
receipt polling) are modelled by an environment record that fixes the
outcome of every external call; the engine functions are translated from
the python source into pure Lean functions over that environment,
returning both the SwapResult and the trace of external actions taken.

Numeric conventions: python's unbounded int is Int/Nat; python floats
(human-readable token amounts, slippage fractions, clock values) are
idealized as exact rationals, with python's int(...) truncation toward
zero modelled by truncQ.
-/

namespace SSV

/-- Decidable equality for Except values, used to evaluate the embedded
functions on concrete inputs. -/
instance {ε α : Type} [DecidableEq ε] [DecidableEq α] : DecidableEq (Except ε α) := fun x y =>
  match x, y with
  | .ok a, .ok b => decidable_of_iff (a = b) (by simp)
  | .error a, .error b => decidable_of_iff (a = b) (by simp)
  | .ok _, .error _ => isFalse (by simp)
  | .error _, .ok _ => isFalse (by simp)

/-- Python int(q) truncation toward zero of a rational number
(Int.tdiv rounds toward zero, as python's int() conversion does). -/
def truncQ (q : ℚ) : ℤ := Int.tdiv q.num (q.den : ℤ)

/-- Test of python's token_id.upper() == "HBAR" sentinel check
(Char.toUpper is ASCII uppercasing, which agrees with python str.upper
on all strings that can possibly compare equal to "HBAR"). -/
def isHbarId (s : String) : Bool := s.data.map Char.toUpper == "HBAR".data

/-- Python str.split(".") on the character list of a string. -/
def splitDot : List Char → List (List Char)
  | [] => [[]]
  | c :: rest =>
    if c = '.' then [] :: splitDot rest
    else
      match splitDot rest with
      | [] => [[c]]
      | p :: ps => (c :: p) :: ps

/-- Accumulating decimal value of a digit string; none on a non-digit. -/
def digitsValAux : Nat → List Char → Option Nat
  | acc, [] => some acc
  | acc, c :: cs => if c.isDigit then digitsValAux (10 * acc + (c.toNat - 48)) cs else none

/-- Value of a nonempty all-digit string, none otherwise. -/
def digitsVal : List Char → Option Nat
  | [] => none
  | l => digitsValAux 0 l

/-- Python int(s) on a string: an optional sign followed by decimal
digits.  (The extra forms python accepts, such as surrounding whitespace
and underscore separators, are not modelled; no claim depends on them.) -/
def pyInt (l : List Char) : Except String ℤ :=
  if l.head? = some '-' then
    match digitsVal l.tail with
    | some n => .ok (-(n : ℤ))
    | none => .error ("invalid literal for int() with base 10: " ++ String.mk l)
  else if l.head? = some '+' then
    match digitsVal l.tail with
    | some n => .ok ((n : ℤ))
    | none => .error ("invalid literal for int() with base 10: " ++ String.mk l)
  else
    match digitsVal l with
    | some n => .ok ((n : ℤ))
    | none => .error ("invalid literal for int() with base 10: " ++ String.mk l)

/-- Lowercase hexadecimal digit characters, as python's format(n, "x"). -/
def hexDigitChar (n : Nat) : Char := "0123456789abcdef".data.getD n '0'

/-- Fuel-driven hex digit extraction (structural recursion so that
concrete instances evaluate inside the kernel). -/
def toHexAux : Nat → Nat → List Char
  | 0, _ => []
  | fuel + 1, n => if n < 16 then [hexDigitChar n] else hexDigitChar (n % 16) :: toHexAux fuel (n / 16)

/-- Hexadecimal digits of n, least significant first. -/
def toHexRev (n : Nat) : List Char := toHexAux (n + 1) n

/-- Hexadecimal digits of n, most significant first (no leading zeros,
a single zero digit for n = 0), as python's format(n, "x"). -/
def hexDigits (n : Nat) : List Char := (toHexRev n).reverse

/-- Zero-pad a digit list on the left to width w (python format width). -/
def padZeros (w : Nat) (l : List Char) : List Char := List.replicate (w - l.length) '0' ++ l

/-- Python format(num, "040x") on an arbitrary (possibly negative) int:
minimum total width 40, zero padded, sign included in the width. -/
def pyFormat040x (n : ℤ) : List Char :=
  if n < 0 then '-' :: padZeros 39 (hexDigits (-n).toNat)
  else padZeros 40 (hexDigits n.toNat)

/-- Hexadecimal digit test (0-9, a-f, A-F). -/
def isHexDigitB (c : Char) : Bool :=
  c.isDigit || ('a' ≤ c && c ≤ 'f') || ('A' ≤ c && c ≤ 'F')

/-- Lowercasing of a hexadecimal digit character (the only characters
Web3.to_checksum_address ever lowercases after validation). -/
def hexLower (c : Char) : Char :=
  if c = 'A' then 'a' else if c = 'B' then 'b' else if c = 'C' then 'c'
  else if c = 'D' then 'd' else if c = 'E' then 'e' else if c = 'F' then 'f' else c

/-- Model of Web3.to_checksum_address (external web3 library): validates
the "0x" + 40-hex-digit address form, rejecting anything else, and
returns the canonical address string.  The EIP-55 mixed-case checksum is
abstracted to the lowercase canonical form: the real checksum casing is a
deterministic function of the lowercase hex digits alone (the function is
case-insensitive in its input), so it is a canonicalization in exactly
the same sense, and no code path in this repository observes letter case
(path encoding consumes the digits via the case-insensitive
bytes.fromhex). -/
def to_checksum_chars (l : List Char) : Except String (List Char) :=
  if l.take 2 = ['0', 'x'] ∧ (l.drop 2).length = 40 ∧ (l.drop 2).all isHexDigitB = true then
    .ok ('0' :: 'x' :: (l.drop 2).map hexLower)
  else .error ("when sending a str, it must be a hex string. Got: " ++ String.mk l)

/-- hedera_id_to_evm from saucerswap_v2_client.py: convert a Hedera ID
(shard.realm.num) to an EVM address string; inputs already starting with
"0x" are passed to the checksum canonicalizer unchanged. -/
def hedera_id_to_evm_chars (l : List Char) : Except String (List Char) :=
  if l.take 2 = ['0', 'x'] then to_checksum_chars l
  else if (splitDot l).length ≠ 3 then .error ("Invalid Hedera ID format: " ++ String.mk l)
  else
    match pyInt ((splitDot l).getD 2 []) with
    | .error m => .error m
    | .ok num => to_checksum_chars ('0' :: 'x' :: pyFormat040x num)

/-- String-level wrapper of the address codec. -/
def hedera_id_to_evm (s : String) : Except String String :=
  (hedera_id_to_evm_chars s.data).map String.mk

/-- Nibble value of a hexadecimal digit character. -/
def hexVal (c : Char) : Nat :=
  if c.isDigit then c.toNat - 48
  else if 'a' ≤ c ∧ c ≤ 'f' then c.toNat - 87
  else c.toNat - 55

/-- Python bytes.fromhex: consecutive pairs of hex digits become bytes;
odd length or a non-hex character is an error. -/
def hexPairs : List Char → Except String (List Nat)
  | [] => .ok []
  | [_] => .error "non-hexadecimal number found in fromhex() arg"
  | a :: b :: rest =>
    if isHexDigitB a ∧ isHexDigitB b then
      (hexPairs rest).map (fun bs => (16 * hexVal a + hexVal b) :: bs)
    else .error "non-hexadecimal number found in fromhex() arg"

/-- Python fee.to_bytes(3, "big"): three big-endian bytes, overflow error
when the fee does not fit 24 bits. -/
def feeBytes3 (f : Nat) : Except String (List Nat) :=
  if f < 2 ^ 24 then .ok [f / 65536, f / 256 % 256, f % 256]
  else .error "int too big to convert"

/-- The loop of encode_path: each token contributes its 20 address bytes
and, while fees remain, the next fee contributes 3 bytes. -/
def encodeTokens : List String → List Nat → Except String (List Nat)
  | [], _ => .ok []
  | t :: ts, fs =>
    match hedera_id_to_evm t with
    | .error m => .error m
    | .ok a =>
      match hexPairs (a.data.drop 2) with
      | .error m => .error m
      | .ok ab =>
        match fs with
        | [] =>
          match encodeTokens ts [] with
          | .error m => .error m
          | .ok rest => .ok (ab ++ rest)
        | f :: fs' =>
          match feeBytes3 f with
          | .error m => .error m
          | .ok fb =>
            match encodeTokens ts fs' with
            | .error m => .error m
            | .ok rest => .ok (ab ++ fb ++ rest)

/-- encode_path from saucerswap_v2_client.py: guard that the fee count is
exactly one less than the token count (python's len(tokens) - 1 is a
signed value, hence the Int comparison), then concatenate. -/
def encode_path (tokens : List String) (fees : List Nat) : Except String (List Nat) :=
  if (fees.length : ℤ) ≠ (tokens.length : ℤ) - 1 then
    .error ("Expected " ++ toString ((tokens.length : ℤ) - 1) ++ " fees, got " ++ toString fees.length)
  else encodeTokens tokens fees

/-- Big-endian base-256 digits of n, fixed width k. -/
def bytesBE : Nat → Nat → List Nat
  | 0, _ => []
  | k + 1, n => bytesBE k (n / 256) ++ [n % 256]

/-- The 20 big-endian address bytes of an account number. -/
def addrBytes (n : Nat) : List Nat := bytesBE 20 n

/-! ## Lemmas about the hexadecimal machinery -/

theorem digitsValAux_digits : ∀ (acc : Nat) (l : List Char) (n : Nat),
    digitsValAux acc l = some n → ∀ c ∈ l, c.isDigit = true
  | _, [], _ => by intro _ c hc; simp at hc
  | acc, c :: cs, n => by
    intro h d hd
    unfold digitsValAux at h
    by_cases hc : c.isDigit = true
    · rw [if_pos hc] at h
      rcases List.mem_cons.mp hd with h1 | h1
      · rw [h1]; exact hc
      · exact digitsValAux_digits _ cs n h d h1
    · rw [if_neg hc] at h; exact absurd h (by simp)

theorem digitsVal_digits {l : List Char} {n : Nat} (h : digitsVal l = some n) :
    ∀ c ∈ l, c.isDigit = true := by
  cases l with
  | nil => intro c hc; simp at hc
  | cons c cs => exact digitsValAux_digits 0 _ n h

theorem digitsVal_ne_nil {l : List Char} {n : Nat} (h : digitsVal l = some n) : l ≠ [] := by
  intro he; rw [he] at h; simp [digitsVal] at h

theorem splitDot_all_digits : ∀ (l : List Char), l ≠ [] →
    (∀ c ∈ l, c.isDigit = true) → splitDot l = [l]
  | [], h, _ => absurd rfl h
  | c :: cs, _, hd => by
    have hc : c ≠ '.' := by
      intro he
      have := hd c (by simp)
      rw [he] at this; simp [Char.isDigit] at this
    unfold splitDot
    rw [if_neg hc]
    cases cs with
    | nil => simp [splitDot]
    | cons d ds =>
      rw [splitDot_all_digits (d :: ds) (by simp) (fun x hx => hd x (by simp [hx]))]

theorem pyInt_digits {l : List Char} {n : Nat} (h : digitsVal l = some n) :
    pyInt l = .ok (n : ℤ) := by
  have hne := digitsVal_ne_nil h
  have hdig := digitsVal_digits h
  cases l with
  | nil => exact absurd rfl hne
  | cons c cs =>
    have hc := hdig c (by simp)
    have h1 : c ≠ '-' := by intro he; rw [he] at hc; simp [Char.isDigit] at hc
    have h2 : c ≠ '+' := by intro he; rw [he] at hc; simp [Char.isDigit] at hc
    unfold pyInt
    rw [if_neg (by simp [h1]), if_neg (by simp [h2]), h]

theorem toHexAux_congr : ∀ (f1 f2 n : Nat), n < f1 → n < f2 → toHexAux f1 n = toHexAux f2 n := by
  intro f1
  induction f1 with
  | zero => omega
  | succ k ih =>
    intro f2 n h1 h2
    cases f2 with
    | zero => omega
    | succ m =>
      by_cases h16 : n < 16
      · simp [toHexAux, h16]
      · simp only [toHexAux, if_neg h16]
        congr 1
        have hlt : n / 16 < n := Nat.div_lt_self (by omega) (by omega)
        exact ih m (n / 16) (by omega) (by omega)

/-- The recursive unfolding of toHexRev. -/
theorem toHexRev_eq (n : Nat) : toHexRev n =
    if n < 16 then [hexDigitChar n] else hexDigitChar (n % 16) :: toHexRev (n / 16) := by
  unfold toHexRev
  by_cases h : n < 16
  · simp [toHexAux, h]
  · simp only [toHexAux, if_neg h]
    congr 1
    have hlt : n / 16 < n := Nat.div_lt_self (by omega) (by omega)
    exact toHexAux_congr n (n / 16 + 1) (n / 16) (by omega) (by omega)

theorem hexVal_hexDigitChar : ∀ d < 16, hexVal (hexDigitChar d) = d := by decide

theorem isHex_hexDigitChar : ∀ d < 16, isHexDigitB (hexDigitChar d) = true := by decide

theorem hexLower_hexDigitChar : ∀ d < 16, hexLower (hexDigitChar d) = hexDigitChar d := by decide

theorem hexLower_idem (c : Char) : hexLower (hexLower c) = hexLower c := by
  by_cases hA : c = 'A'; · subst hA; decide
  by_cases hB : c = 'B'; · subst hB; decide
  by_cases hC : c = 'C'; · subst hC; decide
  by_cases hD : c = 'D'; · subst hD; decide
  by_cases hE : c = 'E'; · subst hE; decide
  by_cases hF : c = 'F'; · subst hF; decide
  have hfix : hexLower c = c := by unfold hexLower; simp [hA, hB, hC, hD, hE, hF]
  rw [hfix, hfix]

theorem isHex_hexLower (c : Char) : isHexDigitB (hexLower c) = isHexDigitB c := by
  by_cases hA : c = 'A'; · subst hA; decide
  by_cases hB : c = 'B'; · subst hB; decide
  by_cases hC : c = 'C'; · subst hC; decide
  by_cases hD : c = 'D'; · subst hD; decide
  by_cases hE : c = 'E'; · subst hE; decide
  by_cases hF : c = 'F'; · subst hF; decide
  have hfix : hexLower c = c := by unfold hexLower; simp [hA, hB, hC, hD, hE, hF]
  rw [hfix]

theorem toHexRev_mem (n : Nat) : ∀ c ∈ toHexRev n, ∃ d, d < 16 ∧ c = hexDigitChar d := by
  by_cases h : n < 16
  · rw [toHexRev_eq, if_pos h]
    intro c hc; simp at hc
    exact ⟨n, h, hc⟩
  · rw [toHexRev_eq, if_neg h]
    intro c hc
    rcases List.mem_cons.mp hc with h1 | h1
    · exact ⟨n % 16, Nat.mod_lt _ (by omega), h1⟩
    · exact toHexRev_mem (n / 16) c h1
termination_by n
decreasing_by exact Nat.div_lt_self (by omega) (by omega)

theorem toHexRev_length : ∀ (k n : Nat), n < 16 ^ (k + 1) → (toHexRev n).length ≤ k + 1 := by
  intro k
  induction k with
  | zero =>
    intro n h
    rw [toHexRev_eq, if_pos (by simpa using h)]
    simp
  | succ k ih =>
    intro n h
    by_cases h16 : n < 16
    · rw [toHexRev_eq, if_pos h16]; simp
    · rw [toHexRev_eq, if_neg h16]
      have hdiv : n / 16 < 16 ^ (k + 1) := by
        rw [Nat.div_lt_iff_lt_mul (by omega)]
        calc n < 16 ^ (k + 2) := h
        _ = 16 ^ (k + 1) * 16 := by ring
      simpa using Nat.succ_le_succ (ih (n / 16) hdiv)

theorem toHexRev_ge256 (n : Nat) (h : 256 ≤ n) :
    toHexRev n = hexDigitChar (n % 16) :: hexDigitChar (n / 16 % 16) :: toHexRev (n / 256) := by
  have h1 : ¬ n < 16 := by omega
  have h2 : ¬ n / 16 < 16 := by
    rw [not_lt, Nat.le_div_iff_mul_le (by omega)]; omega
  rw [toHexRev_eq, if_neg h1]
  congr 1
  rw [toHexRev_eq, if_neg h2]
  congr 2
  rw [Nat.div_div_eq_div_mul]

theorem hexDigits_ge256 (n : Nat) (h : 256 ≤ n) :
    hexDigits n = hexDigits (n / 256) ++ [hexDigitChar (n / 16 % 16), hexDigitChar (n % 16)] := by
  unfold hexDigits
  rw [toHexRev_ge256 n h]
  simp

theorem hexDigits_mem (n : Nat) : ∀ c ∈ hexDigits n, ∃ d, d < 16 ∧ c = hexDigitChar d := by
  intro c hc
  exact toHexRev_mem n c (by simpa [hexDigits] using hc)

theorem hexDigits_length (k n : Nat) (hk : 1 ≤ k) (h : n < 16 ^ k) :
    (hexDigits n).length ≤ k := by
  have : n < 16 ^ ((k - 1) + 1) := by
    have : (k - 1) + 1 = k := by omega
    rw [this]; exact h
  have := toHexRev_length (k - 1) n this
  simp only [hexDigits, List.length_reverse]
  omega

theorem padZeros_length (w : Nat) (l : List Char) (h : l.length ≤ w) :
    (padZeros w l).length = w := by
  simp [padZeros]; omega

theorem bytesBE_length : ∀ (k n : Nat), (bytesBE k n).length = k
  | 0, _ => rfl
  | k + 1, n => by simp [bytesBE, bytesBE_length k (n / 256)]

theorem hexPairs_append2 : ∀ (l : List Char) (a b : Char), l.length % 2 = 0 →
    isHexDigitB a = true → isHexDigitB b = true →
    hexPairs (l ++ [a, b]) = (hexPairs l).map (fun bs => bs ++ [16 * hexVal a + hexVal b])
  | [], a, b => by
    intro _ ha hb
    simp [hexPairs, ha, hb, Except.map]
  | [c], a, b => by intro h; simp at h
  | c :: d :: l, a, b => by
    intro h ha hb
    have h2 : l.length % 2 = 0 := by simp at h; omega
    have ih := hexPairs_append2 l a b h2 ha hb
    by_cases hcd : isHexDigitB c = true ∧ isHexDigitB d = true
    · simp only [List.cons_append, hexPairs, if_pos hcd]
      cases hx : hexPairs l <;> simp [Except.map, hx, ih]
    · simp only [List.cons_append, hexPairs, if_neg hcd, Except.map]

theorem pad_step (k n : Nat) (hk : 1 ≤ k) (h : n < 256 ^ (k + 1)) :
    padZeros (2 * (k + 1)) (hexDigits n) =
      padZeros (2 * k) (hexDigits (n / 256)) ++
        [hexDigitChar (n / 16 % 16), hexDigitChar (n % 16)] := by
  by_cases h256 : 256 ≤ n
  · rw [hexDigits_ge256 n h256]
    have hlen : (hexDigits (n / 256)).length ≤ 2 * k := by
      apply hexDigits_length (2 * k) _ (by omega)
      have : n / 256 < 256 ^ k := by
        rw [Nat.div_lt_iff_lt_mul (by omega)]
        calc n < 256 ^ (k + 1) := h
        _ = 256 ^ k * 256 := by ring
      calc n / 256 < 256 ^ k := this
      _ = 16 ^ (2 * k) := by rw [show (256 : ℕ) = 16 ^ 2 by norm_num, ← pow_mul, Nat.mul_comm]
    simp only [padZeros, List.length_append, List.length_cons, List.length_nil]
    rw [show 2 * (k + 1) - ((hexDigits (n / 256)).length + (0 + 1 + 1)) =
          2 * k - (hexDigits (n / 256)).length by omega]
    simp [List.append_assoc]
  · push_neg at h256
    have hdiv0 : n / 256 = 0 := Nat.div_eq_of_lt h256
    rw [hdiv0]
    have hd0 : hexDigits 0 = ['0'] := by
      unfold hexDigits
      rw [toHexRev_eq, if_pos (by omega)]
      decide
    rw [hd0]
    by_cases h16 : n < 16
    · have hdig : hexDigits n = [hexDigitChar n] := by
        unfold hexDigits
        rw [toHexRev_eq, if_pos h16]; rfl
      have hn16 : n / 16 % 16 = 0 := by
        rw [Nat.div_eq_of_lt h16]
      have hnm : n % 16 = n := Nat.mod_eq_of_lt h16
      rw [hdig, hn16, hnm]
      show List.replicate (2 * (k + 1) - 1) '0' ++ [hexDigitChar n] =
        (List.replicate (2 * k - 1) '0' ++ ['0']) ++ [hexDigitChar 0, hexDigitChar n]
      have hc0 : hexDigitChar 0 = '0' := by decide
      rw [hc0,
        show List.replicate (2 * k - 1) '0' ++ ['0'] = List.replicate (2 * k) '0' by
          rw [← List.replicate_succ' (2 * k - 1) '0']; congr 1; omega,
        show (2 * (k + 1) - 1) = (2 * k) + 1 by omega,
        List.replicate_succ' (2 * k) '0']
      simp
    · push_neg at h16
      have hdiv16 : n / 16 < 16 := by
        rw [Nat.div_lt_iff_lt_mul (by omega)]; omega
      have hdig : hexDigits n = [hexDigitChar (n / 16), hexDigitChar (n % 16)] := by
        unfold hexDigits
        rw [toHexRev_eq, if_neg (by omega), toHexRev_eq, if_pos hdiv16]
        rfl
      have hn16 : n / 16 % 16 = n / 16 := Nat.mod_eq_of_lt hdiv16
      rw [hdig, hn16]
      show List.replicate (2 * (k + 1) - 2) '0' ++ [hexDigitChar (n / 16), hexDigitChar (n % 16)] =
        (List.replicate (2 * k - 1) '0' ++ ['0']) ++ [hexDigitChar (n / 16), hexDigitChar (n % 16)]
      rw [show List.replicate (2 * k - 1) '0' ++ ['0'] = List.replicate (2 * k) '0' by
          rw [← List.replicate_succ' (2 * k - 1) '0']; congr 1; omega,
        show (2 * (k + 1) - 2) = 2 * k by omega]

theorem hexPairs_pad : ∀ (k : Nat), 1 ≤ k → ∀ (n : Nat), n < 256 ^ k →
    hexPairs (padZeros (2 * k) (hexDigits n)) = .ok (bytesBE k n) := by
  intro k
  induction k with
  | zero => omega
  | succ k ih =>
    intro _ n h
    by_cases hk : 1 ≤ k
    · rw [pad_step k n hk h]
      have hlen : (hexDigits (n / 256)).length ≤ 2 * k := by
        apply hexDigits_length (2 * k) _ (by omega)
        have h1 : n / 256 < 256 ^ k := by
          rw [Nat.div_lt_iff_lt_mul (by omega)]
          calc n < 256 ^ (k + 1) := h
          _ = 256 ^ k * 256 := by ring
        calc n / 256 < 256 ^ k := h1
        _ = 16 ^ (2 * k) := by rw [show (256 : ℕ) = 16 ^ 2 by norm_num, ← pow_mul, Nat.mul_comm]
      rw [hexPairs_append2 _ _ _
          (by rw [padZeros_length _ _ hlen]; omega)
          (isHex_hexDigitChar _ (Nat.mod_lt _ (by omega)))
          (isHex_hexDigitChar _ (Nat.mod_lt _ (by omega)))]
      rw [ih hk (n / 256) (by
        rw [Nat.div_lt_iff_lt_mul (by omega)]
        calc n < 256 ^ (k + 1) := h
        _ = 256 ^ k * 256 := by ring)]
      simp only [Except.map]
      congr 1
      show bytesBE k (n / 256) ++ [16 * hexVal (hexDigitChar (n / 16 % 16)) + hexVal (hexDigitChar (n % 16))]
        = bytesBE (k + 1) n
      rw [hexVal_hexDigitChar _ (Nat.mod_lt _ (by omega)),
        hexVal_hexDigitChar _ (Nat.mod_lt _ (by omega))]
      show bytesBE k (n / 256) ++ [16 * (n / 16 % 16) + n % 16] = bytesBE k (n / 256) ++ [n % 256]
      congr 2
      have h1 : n / 16 % 16 = n % 256 / 16 := by
        rw [show (256 : ℕ) = 16 * 16 by norm_num, Nat.mod_mul_right_div_self]
      have h2 : n % 16 = n % 256 % 16 := by
        rw [Nat.mod_mod_of_dvd n (by norm_num)]
      rw [h1, h2]
      omega
    · have hk0 : k = 0 := by omega
      subst hk0
      have h256 : n < 256 := by simpa using h
      by_cases h16 : n < 16
      · have hdig : hexDigits n = [hexDigitChar n] := by
          unfold hexDigits; rw [toHexRev_eq, if_pos h16]; rfl
        rw [hdig]
        show hexPairs ['0', hexDigitChar n] = .ok (bytesBE 1 n)
        have hhex : isHexDigitB '0' = true ∧ isHexDigitB (hexDigitChar n) = true :=
          ⟨by decide, isHex_hexDigitChar n h16⟩
        simp only [hexPairs, if_pos hhex, Except.map]
        have hv0 : hexVal '0' = 0 := by decide
        rw [hv0, hexVal_hexDigitChar n h16]
        simp [bytesBE, Nat.mod_eq_of_lt h256]
      · push_neg at h16
        have hdiv16 : n / 16 < 16 := by rw [Nat.div_lt_iff_lt_mul (by omega)]; omega
        have hdig : hexDigits n = [hexDigitChar (n / 16), hexDigitChar (n % 16)] := by
          unfold hexDigits
          rw [toHexRev_eq, if_neg (by omega), toHexRev_eq, if_pos hdiv16]
          rfl
        rw [hdig]
        show hexPairs (List.replicate 0 '0' ++ [hexDigitChar (n / 16), hexDigitChar (n % 16)]) = .ok (bytesBE 1 n)
        have hhex : isHexDigitB (hexDigitChar (n / 16)) = true ∧ isHexDigitB (hexDigitChar (n % 16)) = true :=
          ⟨isHex_hexDigitChar _ hdiv16, isHex_hexDigitChar _ (Nat.mod_lt _ (by omega))⟩
        simp only [List.replicate, List.nil_append, hexPairs, if_pos hhex, Except.map]
        rw [hexVal_hexDigitChar _ hdiv16, hexVal_hexDigitChar _ (Nat.mod_lt _ (by omega))]
        simp [bytesBE, Nat.mod_eq_of_lt h256]
        omega

theorem hexPairs_ok_of_len : ∀ (k : Nat) (l : List Char), l.length = 2 * k →
    l.all isHexDigitB = true → ∃ bs, hexPairs l = .ok bs ∧ bs.length = k := by
  intro k
  induction k with
  | zero =>
    intro l hl _
    have : l = [] := List.length_eq_zero.mp (by omega)
    subst this
    exact ⟨[], rfl, rfl⟩
  | succ k ih =>
    intro l hl hall
    cases l with
    | nil => simp at hl
    | cons a l1 =>
      cases l1 with
      | nil => simp at hl; omega
      | cons b rest =>
        simp only [List.all_cons, Bool.and_eq_true] at hall
        obtain ⟨ha, hb, hrest⟩ := hall
        obtain ⟨bs, hbs, hlen⟩ := ih rest (by simp at hl; omega) hrest
        refine ⟨(16 * hexVal a + hexVal b) :: bs, ?_, by simp [hlen]⟩
        simp [hexPairs, ha, hb, hbs, Except.map]

/-! ## Lemmas about the address codec -/

theorem all_isHex_map_hexLower : ∀ (l : List Char),
    ((l.map hexLower).all isHexDigitB) = l.all isHexDigitB := by
  intro l
  induction l with
  | nil => rfl
  | cons c t ih => simp [isHex_hexLower, ih]

theorem map_hexLower_idem (l : List Char) : (l.map hexLower).map hexLower = l.map hexLower := by
  induction l with
  | nil => rfl
  | cons c t ih => simp [hexLower_idem, ih]

theorem map_fix_of_mem : ∀ (l : List Char) (f : Char → Char), (∀ c ∈ l, f c = c) → l.map f = l := by
  intro l f h
  induction l with
  | nil => rfl
  | cons c t ih => simp [h c (by simp), ih (fun x hx => h x (by simp [hx]))]

theorem to_checksum_ok {l a : List Char} (h : to_checksum_chars l = .ok a) :
    a = '0' :: 'x' :: (l.drop 2).map hexLower ∧
      (l.drop 2).length = 40 ∧ (l.drop 2).all isHexDigitB = true := by
  rw [to_checksum_chars] at h
  by_cases hc : l.take 2 = ['0', 'x'] ∧ (l.drop 2).length = 40 ∧ (l.drop 2).all isHexDigitB = true
  · rw [if_pos hc] at h
    simp only [Except.ok.injEq] at h
    exact ⟨h.symm, hc.2.1, hc.2.2⟩
  · rw [if_neg hc] at h; simp at h

theorem hedera_chars_ok {l out : List Char} (h : hedera_id_to_evm_chars l = .ok out) :
    ∃ r : List Char, out = '0' :: 'x' :: r.map hexLower ∧
      r.length = 40 ∧ r.all isHexDigitB = true := by
  rw [hedera_id_to_evm_chars] at h
  by_cases h0x : l.take 2 = ['0', 'x']
  · rw [if_pos h0x] at h
    obtain ⟨ho, h40, hall⟩ := to_checksum_ok h
    exact ⟨l.drop 2, ho, h40, hall⟩
  · rw [if_neg h0x] at h
    by_cases h3 : (splitDot l).length ≠ 3
    · rw [if_pos h3] at h; simp at h
    · rw [if_neg h3] at h
      split at h
      · simp at h
      · obtain ⟨ho, h40, hall⟩ := to_checksum_ok h
        exact ⟨_, ho, h40, hall⟩

theorem hedera_ok_shape {s a : String} (h : hedera_id_to_evm s = .ok a) :
    ∃ hx : List Char, a.data = '0' :: 'x' :: hx ∧ hx.length = 40 ∧
      hx.all isHexDigitB = true ∧ hx.map hexLower = hx := by
  rw [hedera_id_to_evm] at h
  cases hc : hedera_id_to_evm_chars s.data with
  | error m => rw [hc] at h; simp [Except.map] at h
  | ok l =>
    rw [hc] at h
    simp only [Except.map, Except.ok.injEq] at h
    obtain ⟨r, ho, h40, hall⟩ := hedera_chars_ok hc
    refine ⟨r.map hexLower, ?_, by simp [h40], ?_, map_hexLower_idem r⟩
    · rw [← h, ho]
    · rw [all_isHex_map_hexLower]; exact hall

/-- C9: the address codec hedera_id_to_evm is idempotent — for every
input string on which it succeeds, applying it to its own output returns
that output unchanged. -/
theorem claim9_codec_idempotent (s a : String) (h : hedera_id_to_evm s = .ok a) :
    hedera_id_to_evm a = .ok a := by
  obtain ⟨hx, hdat, h40, hall, hfix⟩ := hedera_ok_shape h
  rw [hedera_id_to_evm, hedera_id_to_evm_chars, hdat]
  rw [if_pos (by simp)]
  rw [to_checksum_chars, if_pos (by simp [h40, hall])]
  simp only [List.drop, hfix, Except.map]
  congr
  cases a with
  | mk d =>
    simp only [String.data] at hdat
    simp [hdat]

/-- Witness for C9 at a concrete input. -/
theorem claim9_witness :
    hedera_id_to_evm "0.0.7" = .ok "0x0000000000000000000000000000000000000007" ∧
    hedera_id_to_evm "0x0000000000000000000000000000000000000007" =
      .ok "0x0000000000000000000000000000000000000007" :=
  ⟨by decide, claim9_codec_idempotent "0.0.7" _ (by decide)⟩

/-! ## Claims about the path encoder -/

theorem encodeTokens_ok : ∀ (tokens : List String) (fees : List Nat),
    fees.length + 1 = tokens.length →
    (∀ t ∈ tokens, ∃ a, hedera_id_to_evm t = .ok a) →
    (∀ f ∈ fees, f < 2 ^ 24) →
    ∃ bs, encodeTokens tokens fees = .ok bs ∧
      bs.length = 20 * tokens.length + 3 * fees.length := by
  intro tokens
  induction tokens with
  | nil => intro fees h; simp at h
  | cons t ts ih =>
    intro fees hlen htok hfee
    obtain ⟨a, ha⟩ := htok t (by simp)
    obtain ⟨hx, hdat, h40, hall, _⟩ := hedera_ok_shape ha
    have hdrop : a.data.drop 2 = hx := by rw [hdat]; rfl
    obtain ⟨ab, hab, hablen⟩ := hexPairs_ok_of_len 20 hx (by omega) hall
    cases fees with
    | nil =>
      have hts : ts = [] := by
        cases ts with
        | nil => rfl
        | cons _ _ => simp at hlen
      subst hts
      refine ⟨ab, ?_, by simp [hablen]⟩
      simp only [encodeTokens, ha, hdrop, hab, List.append_nil]
    | cons f fs =>
      have hfb : feeBytes3 f = .ok [f / 65536, f / 256 % 256, f % 256] := by
        rw [feeBytes3, if_pos (hfee f (by simp))]
      obtain ⟨rest, hrest, hrestlen⟩ := ih fs (by simp at hlen; omega)
        (fun x hx => htok x (by simp [hx])) (fun x hx => hfee x (by simp [hx]))
      refine ⟨ab ++ [f / 65536, f / 256 % 256, f % 256] ++ rest, ?_, ?_⟩
      · simp only [encodeTokens, ha, hdrop, hab, hfb, hrest]
      · simp [hablen, hrestlen]
        omega

/-- C4: for token lists of length N at least 2 and fee lists of length
N - 1, built from well-formed token identifiers and uint24 FeeTier
values, encode_path returns exactly 20N + 3(N-1) bytes; for any pair of
lists whose fee count differs from the token count minus one it fails
with the fee-count-mismatch error instead of returning. -/
theorem claim4_encode_path_length :
    (∀ (tokens : List String) (fees : List Nat),
      2 ≤ tokens.length →
      fees.length = tokens.length - 1 →
      (∀ t ∈ tokens, ∃ a, hedera_id_to_evm t = .ok a) →
      (∀ f ∈ fees, f < 2 ^ 24) →
      ∃ bs, encode_path tokens fees = .ok bs ∧
        bs.length = 20 * tokens.length + 3 * (tokens.length - 1)) ∧
    (∀ (tokens : List String) (fees : List Nat),
      (fees.length : ℤ) ≠ (tokens.length : ℤ) - 1 →
      ∃ m, encode_path tokens fees = .error m) := by
  constructor
  · intro tokens fees h2 hlen htok hfee
    have hguard : ¬ ((fees.length : ℤ) ≠ (tokens.length : ℤ) - 1) := by
      rw [not_ne_iff, hlen]
      omega
    obtain ⟨bs, hbs, hbslen⟩ := encodeTokens_ok tokens fees (by omega) htok hfee
    refine ⟨bs, ?_, by rw [hbslen, hlen]⟩
    rw [encode_path, if_neg hguard, hbs]
  · intro tokens fees hne
    exact ⟨_, by rw [encode_path, if_pos hne]⟩

/-- Witness for C4 at concrete inputs. -/
theorem claim4_witness :
    (∃ bs, encode_path ["0.0.1", "0.0.2"] [500] = .ok bs ∧ bs.length = 43) ∧
    (∃ m, encode_path ["0.0.1"] [500] = .error m) := by
  constructor
  · have h := claim4_encode_path_length.1 ["0.0.1", "0.0.2"] [500] (by decide) (by decide)
      (by
        intro t ht
        simp only [List.mem_cons, List.not_mem_nil, or_false] at ht
        rcases ht with rfl | rfl
        · exact ⟨"0x0000000000000000000000000000000000000001", by decide⟩
        · exact ⟨"0x0000000000000000000000000000000000000002", by decide⟩)
      (by decide)
    simpa using h
  · exact claim4_encode_path_length.2 ["0.0.1"] [500] (by decide)

theorem splitDot_dotted (d : List Char) (hne : d ≠ []) (hd : ∀ c ∈ d, c.isDigit = true) :
    splitDot ('0' :: '.' :: '0' :: '.' :: d) = [['0'], ['0'], d] := by
  have h1 : splitDot d = [d] := splitDot_all_digits d hne hd
  simp [splitDot, h1]

theorem hexPairs_pad40 (n : Nat) (hn : n < 2 ^ 160) :
    hexPairs (padZeros 40 (hexDigits n)) = .ok (addrBytes n) := by
  have h256 : n < 256 ^ 20 := by
    rw [show (256 : ℕ) = 2 ^ 8 by norm_num, ← pow_mul]
    exact hn
  have := hexPairs_pad 20 (by omega) n h256
  simpa [addrBytes] using this

theorem hedera_dotted (d : List Char) (n : Nat) (hd : digitsVal d = some n) (hn : n < 2 ^ 160) :
    hedera_id_to_evm (String.mk ('0' :: '.' :: '0' :: '.' :: d)) =
      .ok (String.mk ('0' :: 'x' :: padZeros 40 (hexDigits n))) := by
  have hne := digitsVal_ne_nil hd
  have hdig := digitsVal_digits hd
  rw [hedera_id_to_evm]
  show (hedera_id_to_evm_chars ('0' :: '.' :: '0' :: '.' :: d)).map String.mk = _
  rw [hedera_id_to_evm_chars]
  have hx1 : ¬ (('0' :: '.' :: '0' :: '.' :: d).take 2 = ['0', 'x']) := by simp
  rw [if_neg hx1, splitDot_dotted d hne hdig]
  have hx2 : ¬ (([['0'], ['0'], d] : List (List Char)).length ≠ 3) := by simp
  rw [if_neg hx2]
  rw [show ([['0'], ['0'], d] : List (List Char)).getD 2 [] = d from rfl]
  rw [pyInt_digits hd]
  show (to_checksum_chars ('0' :: 'x' :: pyFormat040x ((n : ℕ) : ℤ))).map String.mk = _
  have hpad : padZeros 40 (hexDigits n) = pyFormat040x (n : ℤ) := by
    rw [pyFormat040x, if_neg (by omega)]
    congr 1
  have hplen : (padZeros 40 (hexDigits n)).length = 40 := by
    apply padZeros_length
    apply hexDigits_length 40 n (by omega)
    calc n < 2 ^ 160 := hn
    _ = 16 ^ 40 := by norm_num
  have hpall : (padZeros 40 (hexDigits n)).all isHexDigitB = true := by
    rw [List.all_eq_true]
    intro c hc
    rcases List.mem_append.mp hc with h1 | h1
    · rw [List.eq_of_mem_replicate h1]; decide
    · obtain ⟨dd, hdd, hcc⟩ := hexDigits_mem n c h1
      rw [hcc]; exact isHex_hexDigitChar dd hdd
  have hpfix : (padZeros 40 (hexDigits n)).map hexLower = padZeros 40 (hexDigits n) := by
    apply map_fix_of_mem
    intro c hc
    rcases List.mem_append.mp hc with h1 | h1
    · rw [List.eq_of_mem_replicate h1]; decide
    · obtain ⟨dd, hdd, hcc⟩ := hexDigits_mem n c h1
      rw [hcc]; exact hexLower_hexDigitChar dd hdd
  rw [← hpad]
  have hdrop : (('0' :: 'x' :: padZeros 40 (hexDigits n)).drop 2) = padZeros 40 (hexDigits n) := rfl
  rw [to_checksum_chars, if_pos (by rw [hdrop]; exact ⟨rfl, hplen, hpall⟩)]
  rw [hdrop, hpfix]
  rfl

/-- C5: for any two Hedera-ID tokens 0.0.A and 0.0.B with fee 1500, the
encoded path is the 20 address bytes of A, then the 3-byte big-endian
encoding of 1500 (00 05 dc), then the 20 address bytes of B — exactly 43
bytes, tokens in exactly the order given. -/
theorem claim5_encode_path_pair (dA dB : List Char) (A B : Nat)
    (hA : digitsVal dA = some A) (hB : digitsVal dB = some B)
    (hA160 : A < 2 ^ 160) (hB160 : B < 2 ^ 160) :
    encode_path [String.mk ('0' :: '.' :: '0' :: '.' :: dA),
                 String.mk ('0' :: '.' :: '0' :: '.' :: dB)] [1500]
      = .ok (addrBytes A ++ [0, 5, 220] ++ addrBytes B) ∧
    (addrBytes A ++ [0, 5, 220] ++ addrBytes B).length = 43 := by
  constructor
  · have hg : ¬ ((([1500] : List Nat).length : ℤ) ≠
        (([String.mk ('0' :: '.' :: '0' :: '.' :: dA),
           String.mk ('0' :: '.' :: '0' :: '.' :: dB)] : List String).length : ℤ) - 1) := by
      simp
    rw [encode_path, if_neg hg]
    have hfb : feeBytes3 1500 = .ok [0, 5, 220] := by decide
    have hdropA : (String.mk ('0' :: 'x' :: padZeros 40 (hexDigits A))).data.drop 2 =
        padZeros 40 (hexDigits A) := rfl
    have hdropB : (String.mk ('0' :: 'x' :: padZeros 40 (hexDigits B))).data.drop 2 =
        padZeros 40 (hexDigits B) := rfl
    simp only [encodeTokens, hedera_dotted dA A hA hA160, hedera_dotted dB B hB hB160,
      hdropA, hdropB, hexPairs_pad40 A hA160, hexPairs_pad40 B hB160, hfb, List.append_nil]
  · simp [addrBytes, bytesBE_length]

/-- Witness for C5 at concrete inputs. -/
theorem claim5_witness :
    encode_path ["0.0.7", "0.0.9"] [1500] = .ok (addrBytes 7 ++ [0, 5, 220] ++ addrBytes 9) ∧
    (addrBytes 7 ++ [0, 5, 220] ++ addrBytes 9).length = 43 := by
  have h := claim5_encode_path_pair ['7'] ['9'] 7 9 (by decide) (by decide)
    (by norm_num) (by norm_num)
  exact h

/-! ## Data model of the swap engines -/

/-- Result record of a swap operation (dataclass SwapResult, defined
identically in both engine files); float fields are idealized as
rationals. -/
structure SwapResult where
  success : Bool
  tx_hash : String := ""
  amount_in : ℚ := 0
  amount_out : ℚ := 0
  gas_used : Nat := 0
  error : String := ""
  deriving DecidableEq

/-- Transaction receipt, as far as the engines consume it. -/
structure Receipt where
  status : Nat
  gasUsed : Nat
  deriving DecidableEq

/-- A router call appearing in a transaction built by the engines. -/
inductive RouterCall where
  | exactInput (path : List Nat) (recipient : String) (deadline : ℤ) (amountIn minOut : ℤ)
  | unwrapWHBAR (amountMin : ℤ) (recipient : String)
  deriving DecidableEq

/-- Call data of a transaction submitted to the router (the multicall
elements are the abi encodings of the listed calls; abi encoding is
injective, so the calls themselves are carried). -/
inductive TxData where
  | multicall (calls : List RouterCall)
  | single (c : RouterCall)
  | exactInputSingle (tokenIn tokenOut : String) (fee : Nat) (recipient : String)
      (deadline amountIn minOut sqrtPriceLimit : ℤ)
  deriving DecidableEq

/-- A submitted swap transaction: call data plus attached native value. -/
structure Tx where
  data : TxData
  value : ℤ
  deriving DecidableEq

/-- External actions taken during a swap attempt, in order: allowance
reads, approval broadcasts, swap broadcasts and receipt waits. -/
inductive Act where
  | allowanceCheck (token : String)
  | sendApprove (token spender : String) (amount : ℤ)
  | sendSwap (tx : Tx)
  | waitReceipt (txHash : String)
  deriving DecidableEq

/-- Outcome of every external call a SaucerSwapV2Engine.swap run can
make, fixed up front: the quoter call, the allowance read, the approval
broadcast and its receipt wait, the swap broadcast and its receipt wait.
An error value means that call raises that exception. -/
structure EnvV2 where
  quote : Except String Nat
  allowance : Except String Nat
  approveSend : Except String String
  approveWait : Except String Receipt
  swapSend : Except String String
  swapWait : Except String Receipt

/-- The SwapResult produced by the top-level exception handler:
SwapResult(success=False, error=str(e)) with every other field at its
dataclass default (in particular tx_hash = ""). -/
def mkErr (m : String) : SwapResult := ⟨false, "", 0, 0, 0, m⟩

/-- A finished run: the returned SwapResult plus the trace of external
actions taken. -/
structure Run where
  result : SwapResult
  actions : List Act
  deriving DecidableEq

/-- WHBAR_ID from v2_tokens.py. -/
def WHBAR_ID : String := "0.0.1456986"

/-- The router address resolved at client construction:
hedera_id_to_evm of the mainnet router contract id 0.0.3949434
(construction raises on failure, so the error arm is unreachable). -/
def routerAddress : String :=
  match hedera_id_to_evm "0.0.3949434" with
  | .ok a => a
  | .error _ => ""

/-- The engine's wrapped-native address, hedera_id_to_evm(WHBAR_ID),
computed at engine construction. -/
def whbarAddr : String :=
  match hedera_id_to_evm WHBAR_ID with
  | .ok a => a
  | .error _ => ""

/-- Modelled from the spec: the token metadata registry (the tokens
module imported by hbar_swap_engine.py is not among this repository's
sources).  Per the spec's token lookup table and the vendored client's
CONTRACTS map, WHBAR is token 0.0.1456986; the hbar engine consumes only
its evm_address field. -/
def WHBAR_evm_address : String := whbarAddr

/-- Modelled from the spec: USDC evm address for token 0.0.456858 (see
WHBAR_evm_address; the id is USDC_ID of v2_tokens.py). -/
def USDC_evm_address : String :=
  match hedera_id_to_evm "0.0.456858" with
  | .ok a => a
  | .error _ => ""

/-- Resolution of a route endpoint in SaucerSwapV2Engine.swap:
the wrapped-native address for the HBAR sentinel, hedera_id_to_evm
otherwise (which may raise). -/
def resolveAddr (isHbar : Bool) (tokenId : String) : Except String String :=
  if isHbar then .ok whbarAddr else hedera_id_to_evm tokenId

/-- Step 3 of SaucerSwapV2Engine.swap (allowance handling for an HTS
input token): read the router allowance; when it is below the required
raw input amount, broadcast an approval for ten times the requirement
and block on its receipt before returning.  Produces the propagated
exception state and the actions taken; a broadcast that raises sends
nothing. -/
def allowanceStage (addrIn : String) (rawIn : ℤ) (env : EnvV2) :
    Except String Unit × List Act :=
  match env.allowance with
  | .error m => (.error m, [.allowanceCheck addrIn])
  | .ok a =>
    if (a : ℤ) < rawIn then
      match env.approveSend with
      | .error m => (.error m, [.allowanceCheck addrIn])
      | .ok h =>
        match env.approveWait with
        | .error m =>
          (.error m, [.allowanceCheck addrIn,
            .sendApprove addrIn routerAddress (rawIn * 10), .waitReceipt h])
        | .ok _ =>
          (.ok (), [.allowanceCheck addrIn,
            .sendApprove addrIn routerAddress (rawIn * 10), .waitReceipt h])
    else (.ok (), [.allowanceCheck addrIn])

/-- SaucerSwapV2Engine.swap: resolve the route endpoints (substituting
the wrapped-native address for the HBAR sentinel), quote, compute the
slippage-bounded minimum output, gate on allowance for an HTS input,
encode the path, stamp the millisecond deadline, build the
shape-specific transaction (multicall of exactInput into the router
itself plus unwrapWHBAR to the account for native-out; exactInput with
attached value for native-in; plain exactInput otherwise), broadcast,
and block for the receipt; every exception is caught at the top level
and becomes mkErr. -/
def swapV2 (eoa tokenIn tokenOut : String) (amount : ℚ) (decIn decOut : Nat)
    (fee : Nat) (slippage : ℚ) (nowMs : Nat) (env : EnvV2) : Run :=
  let isHIn := isHbarId tokenIn
  let isHOut := isHbarId tokenOut
  let rawIn : ℤ := truncQ (amount * (10 : ℚ) ^ decIn)
  match resolveAddr isHIn tokenIn with
  | .error m => ⟨mkErr m, []⟩
  | .ok addrIn =>
    match resolveAddr isHOut tokenOut with
    | .error m => ⟨mkErr m, []⟩
    | .ok _ =>
      match env.quote with
      | .error m => ⟨mkErr m, []⟩
      | .ok expectedOut =>
        let minOut : ℤ := truncQ ((expectedOut : ℚ) * (1 - slippage))
        let stage := if isHIn then ((.ok () : Except String Unit), ([] : List Act))
                     else allowanceStage addrIn rawIn env
        match stage.1 with
        | .error m => ⟨mkErr m, stage.2⟩
        | .ok _ =>
          match encode_path [if isHIn then WHBAR_ID else tokenIn,
                             if isHOut then WHBAR_ID else tokenOut] [fee] with
          | .error m => ⟨mkErr m, stage.2⟩
          | .ok path =>
            let deadline : ℤ := (nowMs : ℤ) + 600000
            let tx : Tx :=
              if isHOut then
                ⟨.multicall [.exactInput path routerAddress deadline rawIn minOut,
                             .unwrapWHBAR 0 eoa], 0⟩
              else if isHIn then
                ⟨.single (.exactInput path eoa deadline rawIn minOut),
                  truncQ (amount * (10 : ℚ) ^ (18 : ℕ))⟩
              else
                ⟨.single (.exactInput path eoa deadline rawIn minOut), 0⟩
            match env.swapSend with
            | .error m => ⟨mkErr m, stage.2⟩
            | .ok txh =>
              match env.swapWait with
              | .error m => ⟨mkErr m, stage.2 ++ [.sendSwap tx, .waitReceipt txh]⟩
              | .ok rec =>
                if rec.status = 1 then
                  ⟨⟨true, txh, amount, (expectedOut : ℚ) / (10 : ℚ) ^ decOut, rec.gasUsed, ""⟩,
                    stage.2 ++ [.sendSwap tx, .waitReceipt txh]⟩
                else
                  ⟨⟨false, txh, 0, 0, 0, "Transaction reverted"⟩,
                    stage.2 ++ [.sendSwap tx, .waitReceipt txh]⟩

/-- Outcome of every external call a HbarSwapEngine.swap_hbar_for_usdc
run can make. -/
structure EnvH where
  quote : Except String Nat
  swapSend : Except String String
  swapWait : Except String Receipt

/-- HbarSwapEngine.swap_hbar_for_usdc: quote WHBAR to USDC through
quoteExactInputSingle, compute the percent-based minimum output, stamp a
deadline of int(time.time()) + 120 (seconds since epoch, not
milliseconds), build an exactInputSingle transaction carrying the native
value, broadcast and block for the receipt; every exception is caught at
the top level and becomes mkErr.  The wall clock is passed in as the
current epoch milliseconds, so int(time.time()) is nowMs / 1000. -/
def swap_hbar_for_usdc (eoa : String) (amountHbar : ℚ) (slippagePercent : ℚ)
    (nowMs : Nat) (env : EnvH) : Run :=
  let amountIn8 : ℤ := truncQ (amountHbar * (10 : ℚ) ^ (8 : ℕ))
  let amountWei : ℤ := truncQ (amountHbar * (10 : ℚ) ^ (18 : ℕ))
  match env.quote with
  | .error m => ⟨mkErr m, []⟩
  | .ok expectedOut =>
    let minOut : ℤ := truncQ ((expectedOut : ℚ) * (100 - slippagePercent) / 100)
    let deadline : ℤ := ((nowMs / 1000 : Nat) : ℤ) + 120
    let tx : Tx :=
      ⟨.exactInputSingle WHBAR_evm_address USDC_evm_address 1500 eoa
        deadline amountIn8 minOut 0, amountWei⟩
    match env.swapSend with
    | .error m => ⟨mkErr m, []⟩
    | .ok txh =>
      match env.swapWait with
      | .error m => ⟨mkErr m, [.sendSwap tx, .waitReceipt txh]⟩
      | .ok rec =>
        if rec.status = 1 then
          ⟨⟨true, txh, amountHbar, (expectedOut : ℚ) / (10 : ℚ) ^ (6 : ℕ), rec.gasUsed, ""⟩,
            [.sendSwap tx, .waitReceipt txh]⟩
        else
          ⟨⟨false, txh, 0, 0, 0, "Transaction reverted"⟩,
            [.sendSwap tx, .waitReceipt txh]⟩

/-- Outcome of the external calls of HbarSwapEngine.ensure_approval. -/
structure EnvA where
  allowance : Except String Nat
  approveSend : Except String String
  approveWait : Except String Receipt

/-- HbarSwapEngine.ensure_approval: read the router allowance; when it
already covers the amount return False without any transaction,
otherwise broadcast an approval for the unlimited amount 2^256 - 1,
block on its receipt, and return True.  The function itself has no
exception handler, so errors propagate to the caller. -/
def ensure_approval (tokenAddr : String) (amount : ℤ) (env : EnvA) :
    Except String Bool × List Act :=
  match env.allowance with
  | .error m => (.error m, [.allowanceCheck tokenAddr])
  | .ok a =>
    if (a : ℤ) ≥ amount then (.ok false, [.allowanceCheck tokenAddr])
    else
      match env.approveSend with
      | .error m => (.error m, [.allowanceCheck tokenAddr])
      | .ok h =>
        match env.approveWait with
        | .error m => (.error m, [.allowanceCheck tokenAddr,
            .sendApprove tokenAddr routerAddress (2 ^ 256 - 1), .waitReceipt h])
        | .ok _ => (.ok true, [.allowanceCheck tokenAddr,
            .sendApprove tokenAddr routerAddress (2 ^ 256 - 1), .waitReceipt h])

/-- get_balance_token (present with the same error policy in both engine
files): divide the raw balance by 10^decimals, and return 0.0 when the
underlying balance query raises for any reason. -/
def get_balance_token (balance : Except String Nat) (decimals : Nat) : ℚ :=
  match balance with
  | .error _ => 0
  | .ok raw => (raw : ℚ) / (10 : ℚ) ^ decimals

/-! ## Trace observations -/

/-- The swap transactions broadcast during a run (approval transactions
are not swap transactions). -/
def sentSwapTxs (r : Run) : List Tx :=
  r.actions.filterMap fun a =>
    match a with
    | .sendSwap tx => some tx
    | _ => none

/-- The approval broadcasts of a run. -/
def sentApproves (r : Run) : List Act :=
  r.actions.filter fun a =>
    match a with
    | .sendApprove _ _ _ => true
    | _ => false

/-- The allowance reads of a run. -/
def allowanceReads (r : Run) : List Act :=
  r.actions.filter fun a =>
    match a with
    | .allowanceCheck _ => true
    | _ => false

/-- Deadlines carried by a router call. -/
def callDeadlines : RouterCall → List ℤ
  | .exactInput _ _ d _ _ => [d]
  | .unwrapWHBAR _ _ => []

/-- Deadlines carried by a transaction's call data. -/
def txDeadlines (tx : Tx) : List ℤ :=
  match tx.data with
  | .multicall cs => (cs.map callDeadlines).flatten
  | .single c => callDeadlines c
  | .exactInputSingle _ _ _ _ d _ _ _ => [d]

/-- Deadlines embedded in all swap transactions broadcast in a run. -/
def runDeadlines (r : Run) : List ℤ := ((sentSwapTxs r).map txDeadlines).flatten

/-! ## Trace lemmas -/

theorem allowanceStage_swapFree (addr : String) (raw : ℤ) (env : EnvV2) :
    ((allowanceStage addr raw env).2.filterMap fun a =>
      match a with
      | .sendSwap tx => some tx
      | _ => none) = [] := by
  unfold allowanceStage
  repeat' split
  all_goals rfl

theorem stage_swapFree (c : Bool) (addr : String) (raw : ℤ) (env : EnvV2) :
    ((if c then ((.ok () : Except String Unit), ([] : List Act))
      else allowanceStage addr raw env).2.filterMap fun a =>
        match a with
        | .sendSwap tx => some tx
        | _ => none) = [] := by
  by_cases hc : c
  · rw [if_pos hc]; rfl
  · rw [if_neg hc]; exact allowanceStage_swapFree addr raw env

/-- Every deadline in a transaction submitted by SaucerSwapV2Engine.swap
is the engine's millisecond deadline now_ms + 600000. -/
theorem swapV2_deadlines (eoa tIn tOut : String) (amount : ℚ) (dIn dOut fee : Nat)
    (slip : ℚ) (nowMs : Nat) (env : EnvV2) :
    ∀ d ∈ runDeadlines (swapV2 eoa tIn tOut amount dIn dOut fee slip nowMs env),
      d = (nowMs : ℤ) + 600000 := by
  intro d hd
  simp only [swapV2] at hd
  repeat' split at hd
  all_goals simp_all [runDeadlines, sentSwapTxs, txDeadlines, callDeadlines,
    List.filterMap_append, stage_swapFree, allowanceStage_swapFree, mkErr]

/-- Every deadline in a transaction submitted by
HbarSwapEngine.swap_hbar_for_usdc is int(time.time()) + 120, i.e. the
epoch-second clock plus 120. -/
theorem swapHbar_deadlines (eoa : String) (amountHbar slipPct : ℚ) (nowMs : Nat) (env : EnvH) :
    ∀ d ∈ runDeadlines (swap_hbar_for_usdc eoa amountHbar slipPct nowMs env),
      d = ((nowMs / 1000 : Nat) : ℤ) + 120 := by
  intro d hd
  simp only [swap_hbar_for_usdc] at hd
  repeat' split at hd
  all_goals simp_all [runDeadlines, sentSwapTxs, txDeadlines, callDeadlines,
    List.filterMap_append, mkErr]

/-! ## Claims about the engines -/

/-- C10: get_balance_token never raises: any exception from the
underlying balance query yields 0.0, which is the same value returned
for a genuine zero balance, so the two are indistinguishable to the
caller. -/
theorem claim10_balance_never_raises :
    (∀ (m : String) (d : Nat), get_balance_token (.error m) d = 0) ∧
    (∀ d : Nat, get_balance_token (.ok 0) d = 0) := by
  constructor
  · intro m d; rfl
  · intro d; simp [get_balance_token]

/-- Counterexample to C1 as stated: a swap_hbar_for_usdc run at epoch
milliseconds 1760227200000 submits a transaction whose embedded deadline
is 1760227320 — computed from the epoch-seconds clock — which is far
below now_ms, hence outside [now_ms, now_ms + grace] for every
nonnegative grace window. -/
theorem claim1_counterexample :
    runDeadlines (swap_hbar_for_usdc "0xeoa" 1 2 1760227200000
      ⟨.ok 5000000, .ok "0xhash", .ok ⟨1, 77⟩⟩) = [1760227320] ∧
    ¬ ((1760227200000 : ℤ) ≤ 1760227320) :=
  ⟨by decide, by decide⟩

/-- C1 amended: the deadline embedded in any swap transaction submitted
by SaucerSwapV2Engine.swap equals now_ms + 600000 and so lies within
[now_ms, now_ms + 600000]; the deadline embedded by
HbarSwapEngine.swap_hbar_for_usdc instead equals now_sec + 120 on the
epoch-seconds clock and lies within [now_sec, now_sec + 120]. -/
theorem claim1_amended :
    (∀ (eoa tIn tOut : String) (amount : ℚ) (dIn dOut fee : Nat) (slip : ℚ)
        (nowMs : Nat) (env : EnvV2),
      ∀ d ∈ runDeadlines (swapV2 eoa tIn tOut amount dIn dOut fee slip nowMs env),
        d = (nowMs : ℤ) + 600000 ∧ (nowMs : ℤ) ≤ d ∧ d ≤ (nowMs : ℤ) + 600000) ∧
    (∀ (eoa : String) (amountHbar slipPct : ℚ) (nowMs : Nat) (env : EnvH),
      ∀ d ∈ runDeadlines (swap_hbar_for_usdc eoa amountHbar slipPct nowMs env),
        d = ((nowMs / 1000 : Nat) : ℤ) + 120 ∧
          ((nowMs / 1000 : Nat) : ℤ) ≤ d ∧ d ≤ ((nowMs / 1000 : Nat) : ℤ) + 120) := by
  constructor
  · intro eoa tIn tOut amount dIn dOut fee slip nowMs env d hd
    have h := swapV2_deadlines eoa tIn tOut amount dIn dOut fee slip nowMs env d hd
    exact ⟨h, by omega, by omega⟩
  · intro eoa amountHbar slipPct nowMs env d hd
    have h := swapHbar_deadlines eoa amountHbar slipPct nowMs env d hd
    exact ⟨h, by omega, by omega⟩

/-- Witness for the amended C1 at a concrete run. -/
theorem claim1_witness :
    (1760227800000 : ℤ) = (1760227200000 : Nat) + 600000 ∧
      ((1760227200000 : Nat) : ℤ) ≤ 1760227800000 ∧
      (1760227800000 : ℤ) ≤ ((1760227200000 : Nat) : ℤ) + 600000 :=
  claim1_amended.1 "0xeoa" "HBAR" "0.0.456858" 1 8 6 1500 (1 / 100) 1760227200000
    ⟨.ok 5000000, .ok 0, .ok "0xa", .ok ⟨1, 5⟩, .ok "0xh", .ok ⟨1, 7⟩⟩
    1760227800000 (by decide)

/-- C3: a native-out swap submits exactly one on-chain swap
transaction: at most one swap broadcast ever happens in a run; every
swap transaction broadcast when token_out is the HBAR sentinel is a
multicall of exactly two calls — an exactInput whose recipient is the
router itself followed by unwrapWHBAR delivering to the engine's
account — and under a successful pre-broadcast sequence the run
broadcasts exactly that one transaction. -/
theorem claim3_native_out_atomic :
    (∀ (eoa tIn tOut : String) (amount : ℚ) (dIn dOut fee : Nat) (slip : ℚ)
        (nowMs : Nat) (env : EnvV2),
      (sentSwapTxs (swapV2 eoa tIn tOut amount dIn dOut fee slip nowMs env)).length ≤ 1) ∧
    (∀ (eoa tIn tOut : String) (amount : ℚ) (dIn dOut fee : Nat) (slip : ℚ)
        (nowMs : Nat) (env : EnvV2),
      isHbarId tOut = true →
      ∀ tx ∈ sentSwapTxs (swapV2 eoa tIn tOut amount dIn dOut fee slip nowMs env),
        ∃ p rawIn minOut,
          tx = ⟨.multicall [.exactInput p routerAddress ((nowMs : ℤ) + 600000) rawIn minOut,
                            .unwrapWHBAR 0 eoa], 0⟩) ∧
    (∀ (eoa tIn tOut : String) (amount : ℚ) (dIn dOut fee : Nat) (slip : ℚ)
        (nowMs : Nat) (env : EnvV2) (addrIn : String) (E : Nat) (p : List Nat) (txh : String),
      isHbarId tIn = false → isHbarId tOut = true →
      hedera_id_to_evm tIn = .ok addrIn →
      env.quote = .ok E →
      (allowanceStage addrIn (truncQ (amount * (10 : ℚ) ^ dIn)) env).1 = .ok () →
      encode_path [tIn, WHBAR_ID] [fee] = .ok p →
      env.swapSend = .ok txh →
      sentSwapTxs (swapV2 eoa tIn tOut amount dIn dOut fee slip nowMs env) =
        [⟨.multicall [.exactInput p routerAddress ((nowMs : ℤ) + 600000)
            (truncQ (amount * (10 : ℚ) ^ dIn)) (truncQ ((E : ℚ) * (1 - slip))),
          .unwrapWHBAR 0 eoa], 0⟩]) := by
  refine ⟨?_, ?_, ?_⟩
  · intro eoa tIn tOut amount dIn dOut fee slip nowMs env
    simp only [swapV2]
    repeat' split
    all_goals simp [sentSwapTxs, List.filterMap_append, stage_swapFree,
      allowanceStage_swapFree, mkErr]
  · intro eoa tIn tOut amount dIn dOut fee slip nowMs env hOut tx htx
    simp only [swapV2] at htx
    repeat' split at htx
    all_goals simp_all [sentSwapTxs, List.filterMap_append, stage_swapFree,
      allowanceStage_swapFree, mkErr]
  · intro eoa tIn tOut amount dIn dOut fee slip nowMs env addrIn E p txh
      hIn hOut hAddr hq hstage hp hs
    simp only [swapV2, hIn, hOut, resolveAddr, Bool.false_eq_true, if_false, if_true,
      hAddr, hq, hstage, hp, hs]
    cases hwait : env.swapWait with
    | error m =>
      simp [sentSwapTxs, List.filterMap_append, allowanceStage_swapFree]
    | ok rec =>
      by_cases hst : rec.status = 1 <;>
        simp [hst, sentSwapTxs, List.filterMap_append, allowanceStage_swapFree]

/-- Witness for C3 at a concrete run. -/
theorem claim3_witness :
    (sentSwapTxs (swapV2 "0xeoa" "0.0.456858" "HBAR" 1 6 8 1500 (1 / 100) 1760227200000
      ⟨.ok 900, .ok 5000000, .ok "0xa", .ok ⟨1, 5⟩, .ok "0xh", .ok ⟨1, 7⟩⟩)).length ≤ 1 ∧
    sentSwapTxs (swapV2 "0xeoa" "0.0.456858" "HBAR" 1 6 8 1500 (1 / 100) 1760227200000
      ⟨.ok 900, .ok 5000000, .ok "0xa", .ok ⟨1, 5⟩, .ok "0xh", .ok ⟨1, 7⟩⟩) =
      [⟨.multicall [.exactInput (addrBytes 456858 ++ [0, 5, 220] ++ addrBytes 1456986)
          routerAddress ((1760227200000 : ℤ) + 600000)
          (truncQ ((1 : ℚ) * (10 : ℚ) ^ (6 : ℕ)))
          (truncQ ((900 : ℚ) * (1 - 1 / 100))),
        .unwrapWHBAR 0 "0xeoa"], 0⟩] := by
  constructor
  · exact claim3_native_out_atomic.1 "0xeoa" "0.0.456858" "HBAR" 1 6 8 1500 (1 / 100)
      1760227200000 ⟨.ok 900, .ok 5000000, .ok "0xa", .ok ⟨1, 5⟩, .ok "0xh", .ok ⟨1, 7⟩⟩
  · exact claim3_native_out_atomic.2.2 "0xeoa" "0.0.456858" "HBAR" 1 6 8 1500 (1 / 100)
      1760227200000 ⟨.ok 900, .ok 5000000, .ok "0xa", .ok ⟨1, 5⟩, .ok "0xh", .ok ⟨1, 7⟩⟩
      "0x000000000000000000000000000000000006f89a" 900
      (addrBytes 456858 ++ [0, 5, 220] ++ addrBytes 1456986) "0xh"
      (by decide) (by decide) (by decide) rfl
      (by
        have h1 : truncQ ((1 : ℚ) * (10 : ℚ) ^ (6 : ℕ)) = 1000000 := by norm_num [truncQ]
        rw [h1]
        simp [allowanceStage])
      (by decide) rfl

/-- truncQ is the identity on rationals that are integers (python's
int() of an integral value). -/
theorem truncQ_intCast (z : ℤ) (q : ℚ) (h : q = (z : ℚ)) : truncQ q = z := by
  subst h
  simp [truncQ, Rat.num_intCast, Rat.den_intCast, Int.tdiv_one]

/-- A path encoded for the route [WHBAR_ID, tokenOut] starts with the 20
address bytes of the wrapped-native token 0.0.1456986. -/
theorem encode_path_whbar_first (tOut : String) (fee : Nat) (p : List Nat)
    (hp : encode_path [WHBAR_ID, tOut] [fee] = .ok p) :
    p.take 20 = addrBytes 1456986 := by
  rw [encode_path] at hp
  rw [if_neg (by simp)] at hp
  have hw : hedera_id_to_evm WHBAR_ID =
      .ok "0x0000000000000000000000000000000000163b5a" := by decide
  have hb : hexPairs (("0x0000000000000000000000000000000000163b5a" : String).data.drop 2) =
      .ok (addrBytes 1456986) := by decide
  have h20 : (addrBytes 1456986).length = 20 := bytesBE_length 20 1456986
  unfold encodeTokens at hp
  simp only [hw, hb] at hp
  cases hfb : feeBytes3 fee with
  | error m => simp only [hfb] at hp; simp at hp
  | ok fb =>
    cases hrest : encodeTokens [tOut] [] with
    | error m => simp only [hfb, hrest] at hp; simp at hp
    | ok rest =>
      simp only [hfb, hrest, Except.ok.injEq] at hp
      rw [← hp]
      exact List.take_left' h20

/-- C7: a native-in swap attaches the input amount scaled by 10^18 as
transaction value (exactly X times 10 to the 18 whenever that product is
integral), routes its first leg through the wrapped-native address, and
performs zero allowance reads and zero approval broadcasts; the same
holds for the hbar engine's swap_hbar_for_usdc, whose tokenIn field is
the wrapped-native address. -/
theorem claim7_native_in :
    (∀ (eoa tIn tOut : String) (amount : ℚ) (dIn dOut fee : Nat) (slip : ℚ)
        (nowMs : Nat) (env : EnvV2) (addrOut : String) (E : Nat) (p : List Nat) (txh : String),
      isHbarId tIn = true → isHbarId tOut = false →
      hedera_id_to_evm tOut = .ok addrOut →
      env.quote = .ok E →
      encode_path [WHBAR_ID, tOut] [fee] = .ok p →
      env.swapSend = .ok txh →
      (swapV2 eoa tIn tOut amount dIn dOut fee slip nowMs env).actions =
        [.sendSwap ⟨.single (.exactInput p eoa ((nowMs : ℤ) + 600000)
            (truncQ (amount * (10 : ℚ) ^ dIn)) (truncQ ((E : ℚ) * (1 - slip)))),
          truncQ (amount * (10 : ℚ) ^ (18 : ℕ))⟩, .waitReceipt txh] ∧
      p.take 20 = addrBytes 1456986 ∧
      (∀ z : ℤ, amount * (10 : ℚ) ^ (18 : ℕ) = (z : ℚ) →
        truncQ (amount * (10 : ℚ) ^ (18 : ℕ)) = z)) ∧
    (∀ (eoa : String) (X slipPct : ℚ) (nowMs : Nat) (env : EnvH) (E : Nat) (txh : String),
      env.quote = .ok E → env.swapSend = .ok txh →
      (swap_hbar_for_usdc eoa X slipPct nowMs env).actions =
        [.sendSwap ⟨.exactInputSingle WHBAR_evm_address USDC_evm_address 1500 eoa
            (((nowMs / 1000 : Nat) : ℤ) + 120) (truncQ (X * (10 : ℚ) ^ (8 : ℕ)))
            (truncQ ((E : ℚ) * (100 - slipPct) / 100)) 0,
          truncQ (X * (10 : ℚ) ^ (18 : ℕ))⟩, .waitReceipt txh] ∧
      (∀ z : ℤ, X * (10 : ℚ) ^ (18 : ℕ) = (z : ℚ) →
        truncQ (X * (10 : ℚ) ^ (18 : ℕ)) = z)) := by
  constructor
  · intro eoa tIn tOut amount dIn dOut fee slip nowMs env addrOut E p txh
      hIn hOut haOut hq hp hs
    refine ⟨?_, encode_path_whbar_first tOut fee p hp, fun z hz => truncQ_intCast z _ hz⟩
    simp only [swapV2, hIn, hOut, resolveAddr, Bool.false_eq_true, if_false, if_true,
      haOut, hq, hp, hs]
    cases hwait : env.swapWait with
    | error m => simp
    | ok rec => by_cases hst : rec.status = 1 <;> simp [hst]
  · intro eoa X slipPct nowMs env E txh hq hs
    refine ⟨?_, fun z hz => truncQ_intCast z _ hz⟩
    simp only [swap_hbar_for_usdc, hq, hs]
    cases hwait : env.swapWait with
    | error m => simp
    | ok rec => by_cases hst : rec.status = 1 <;> simp [hst]

/-- Witness for C7 at concrete runs of both engines. -/
theorem claim7_witness :
    ((swapV2 "0xeoa" "HBAR" "0.0.456858" 1 8 6 1500 (1 / 100) 1760227200000
        ⟨.ok 900, .ok 0, .ok "0xa", .ok ⟨1, 5⟩, .ok "0xh", .ok ⟨1, 7⟩⟩).actions =
      [.sendSwap ⟨.single (.exactInput
          (addrBytes 1456986 ++ [0, 5, 220] ++ addrBytes 456858) "0xeoa"
          ((1760227200000 : ℤ) + 600000)
          (truncQ ((1 : ℚ) * (10 : ℚ) ^ (8 : ℕ)))
          (truncQ ((900 : ℚ) * (1 - 1 / 100)))),
        truncQ ((1 : ℚ) * (10 : ℚ) ^ (18 : ℕ))⟩, .waitReceipt "0xh"] ∧
      (addrBytes 1456986 ++ [0, 5, 220] ++ addrBytes 456858).take 20 = addrBytes 1456986 ∧
      truncQ ((1 : ℚ) * (10 : ℚ) ^ (18 : ℕ)) = 10 ^ 18) ∧
    ((swap_hbar_for_usdc "0xeoa" 1 2 1760227200000
        ⟨.ok 5000000, .ok "0xhash", .ok ⟨1, 77⟩⟩).actions =
      [.sendSwap ⟨.exactInputSingle WHBAR_evm_address USDC_evm_address 1500 "0xeoa"
          (((1760227200000 / 1000 : Nat) : ℤ) + 120)
          (truncQ ((1 : ℚ) * (10 : ℚ) ^ (8 : ℕ)))
          (truncQ ((5000000 : ℚ) * (100 - 2) / 100)) 0,
        truncQ ((1 : ℚ) * (10 : ℚ) ^ (18 : ℕ))⟩, .waitReceipt "0xhash"] ∧
      truncQ ((1 : ℚ) * (10 : ℚ) ^ (18 : ℕ)) = 10 ^ 18) := by
  constructor
  · have h := claim7_native_in.1 "0xeoa" "HBAR" "0.0.456858" 1 8 6 1500 (1 / 100)
      1760227200000 ⟨.ok 900, .ok 0, .ok "0xa", .ok ⟨1, 5⟩, .ok "0xh", .ok ⟨1, 7⟩⟩
      "0x000000000000000000000000000000000006f89a"
      900 (addrBytes 1456986 ++ [0, 5, 220] ++ addrBytes 456858) "0xh"
      (by decide) (by decide) (by decide) rfl (by decide) rfl
    exact ⟨h.1, h.2.1, h.2.2 (10 ^ 18) (by norm_num)⟩
  · have h := claim7_native_in.2 "0xeoa" 1 2 1760227200000
      ⟨.ok 5000000, .ok "0xhash", .ok ⟨1, 77⟩⟩ 5000000 "0xhash" rfl rfl
    exact ⟨h.1, h.2 (10 ^ 18) (by norm_num)⟩

theorem resolveAddr_false (t : String) : resolveAddr false t = hedera_id_to_evm t := by
  simp [resolveAddr]

/-- C8: the approval step before a token-input swap.  ensure_approval
with an already-sufficient allowance returns immediately with no
transaction; with an insufficient allowance it broadcasts exactly one
approval raising the allowance to the unlimited 2^256 - 1 and blocks on
its receipt.  SaucerSwapV2Engine.swap likewise broadcasts no approval
when the allowance covers the raw input; otherwise it broadcasts exactly
one approval for ten times the requirement, waits for its receipt
before the swap broadcast (the order of the trace), and if that wait
raises no swap is broadcast at all. -/
theorem claim8_approval :
    (∀ (token : String) (amt : ℤ) (env : EnvA) (a : Nat),
      env.allowance = .ok a → amt ≤ (a : ℤ) →
      ensure_approval token amt env = (.ok false, [.allowanceCheck token])) ∧
    (∀ (token : String) (amt : ℤ) (env : EnvA) (a : Nat) (h : String) (rec : Receipt),
      env.allowance = .ok a → (a : ℤ) < amt →
      env.approveSend = .ok h → env.approveWait = .ok rec →
      ensure_approval token amt env = (.ok true, [.allowanceCheck token,
        .sendApprove token routerAddress (2 ^ 256 - 1), .waitReceipt h])) ∧
    (∀ (eoa tIn tOut : String) (amount : ℚ) (dIn dOut fee : Nat) (slip : ℚ)
        (nowMs : Nat) (env : EnvV2) (a : Nat),
      isHbarId tIn = false →
      env.allowance = .ok a → truncQ (amount * (10 : ℚ) ^ dIn) ≤ (a : ℤ) →
      sentApproves (swapV2 eoa tIn tOut amount dIn dOut fee slip nowMs env) = []) ∧
    (∀ (eoa tIn tOut : String) (amount : ℚ) (dIn dOut fee : Nat) (slip : ℚ)
        (nowMs : Nat) (env : EnvV2) (addrIn addrOut : String) (E a : Nat)
        (hA : String) (recA : Receipt) (p : List Nat) (txh : String),
      isHbarId tIn = false →
      hedera_id_to_evm tIn = .ok addrIn →
      resolveAddr (isHbarId tOut) tOut = .ok addrOut →
      env.quote = .ok E →
      env.allowance = .ok a → (a : ℤ) < truncQ (amount * (10 : ℚ) ^ dIn) →
      env.approveSend = .ok hA → env.approveWait = .ok recA →
      encode_path [tIn, if isHbarId tOut then WHBAR_ID else tOut] [fee] = .ok p →
      env.swapSend = .ok txh →
      ∃ tx, (swapV2 eoa tIn tOut amount dIn dOut fee slip nowMs env).actions =
        [.allowanceCheck addrIn,
         .sendApprove addrIn routerAddress (truncQ (amount * (10 : ℚ) ^ dIn) * 10),
         .waitReceipt hA, .sendSwap tx, .waitReceipt txh]) ∧
    (∀ (eoa tIn tOut : String) (amount : ℚ) (dIn dOut fee : Nat) (slip : ℚ)
        (nowMs : Nat) (env : EnvV2) (addrIn addrOut : String) (E a : Nat) (hA m : String),
      isHbarId tIn = false →
      hedera_id_to_evm tIn = .ok addrIn →
      resolveAddr (isHbarId tOut) tOut = .ok addrOut →
      env.quote = .ok E →
      env.allowance = .ok a → (a : ℤ) < truncQ (amount * (10 : ℚ) ^ dIn) →
      env.approveSend = .ok hA → env.approveWait = .error m →
      sentSwapTxs (swapV2 eoa tIn tOut amount dIn dOut fee slip nowMs env) = []) := by
  refine ⟨?_, ?_, ?_, ?_, ?_⟩
  · intro token amt env a hal hge
    simp only [ensure_approval, hal]
    rw [if_pos (show (a : ℤ) ≥ amt from hge)]
  · intro token amt env a h rec hal hlt hsend hwait
    simp only [ensure_approval, hal, hsend, hwait]
    rw [if_neg (show ¬ ((a : ℤ) ≥ amt) by omega)]
  · intro eoa tIn tOut amount dIn dOut fee slip nowMs env a hIn hal hge
    have hge' : ¬ ((a : ℤ) < truncQ (amount * (10 : ℚ) ^ dIn)) := not_lt.mpr hge
    simp only [swapV2, hIn, Bool.false_eq_true, if_false, allowanceStage, hal, hge',
      ite_false]
    repeat' split
    all_goals simp [sentApproves]
  · intro eoa tIn tOut amount dIn dOut fee slip nowMs env addrIn addrOut E a hA recA p txh
      hIn hAddr hOutRes hq hal hlt hsend hwait hp hs
    refine ⟨if isHbarId tOut then
        ⟨.multicall [.exactInput p routerAddress ((nowMs : ℤ) + 600000)
            (truncQ (amount * (10 : ℚ) ^ dIn)) (truncQ ((E : ℚ) * (1 - slip))),
          .unwrapWHBAR 0 eoa], 0⟩
      else
        ⟨.single (.exactInput p eoa ((nowMs : ℤ) + 600000)
            (truncQ (amount * (10 : ℚ) ^ dIn)) (truncQ ((E : ℚ) * (1 - slip)))), 0⟩, ?_⟩
    simp only [swapV2, hIn, Bool.false_eq_true, if_false, resolveAddr_false, hAddr, hOutRes,
      hq, allowanceStage, hal, hlt, ite_true, hsend, hwait, hp, hs]
    cases hw2 : env.swapWait with
    | error m => simp
    | ok rec => by_cases hst : rec.status = 1 <;> simp [hst]
  · intro eoa tIn tOut amount dIn dOut fee slip nowMs env addrIn addrOut E a hA m
      hIn hAddr hOutRes hq hal hlt hsend hwait
    simp only [swapV2, hIn, Bool.false_eq_true, if_false, resolveAddr_false, hAddr, hOutRes,
      hq, allowanceStage, hal, hlt, ite_true, hsend, hwait]
    simp [sentSwapTxs]

/-- Witness for C8 at concrete inputs. -/
theorem claim8_witness :
    ensure_approval "0xtok" 100 ⟨.ok 500, .ok "0xa", .ok ⟨1, 5⟩⟩ =
      (.ok false, [.allowanceCheck "0xtok"]) ∧
    ensure_approval "0xtok" 1000 ⟨.ok 500, .ok "0xa", .ok ⟨1, 5⟩⟩ =
      (.ok true, [.allowanceCheck "0xtok",
        .sendApprove "0xtok" routerAddress (2 ^ 256 - 1), .waitReceipt "0xa"]) ∧
    sentApproves (swapV2 "0xeoa" "0.0.456858" "0.0.10082597" 1 6 8 1500 (1 / 100)
      1760227200000 ⟨.ok 900, .ok 5000000, .ok "0xa", .ok ⟨1, 5⟩, .ok "0xh", .ok ⟨1, 7⟩⟩) = [] ∧
    (∃ tx, (swapV2 "0xeoa" "0.0.456858" "0.0.10082597" 1 6 8 1500 (1 / 100)
        1760227200000 ⟨.ok 900, .ok 0, .ok "0xa", .ok ⟨1, 5⟩, .ok "0xh", .ok ⟨1, 7⟩⟩).actions =
      [.allowanceCheck "0x000000000000000000000000000000000006f89a",
       .sendApprove "0x000000000000000000000000000000000006f89a" routerAddress
         (truncQ ((1 : ℚ) * (10 : ℚ) ^ (6 : ℕ)) * 10),
       .waitReceipt "0xa", .sendSwap tx, .waitReceipt "0xh"]) ∧
    sentSwapTxs (swapV2 "0xeoa" "0.0.456858" "0.0.10082597" 1 6 8 1500 (1 / 100)
      1760227200000 ⟨.ok 900, .ok 0, .ok "0xa", .error "approval timed out", .ok "0xh", .ok ⟨1, 7⟩⟩) = [] := by
  have h1 : truncQ ((1 : ℚ) * (10 : ℚ) ^ (6 : ℕ)) = 1000000 := by norm_num [truncQ]
  refine ⟨?_, ?_, ?_, ?_, ?_⟩
  · exact claim8_approval.1 "0xtok" 100 ⟨.ok 500, .ok "0xa", .ok ⟨1, 5⟩⟩ 500 rfl (by omega)
  · exact claim8_approval.2.1 "0xtok" 1000 ⟨.ok 500, .ok "0xa", .ok ⟨1, 5⟩⟩ 500 "0xa" ⟨1, 5⟩
      rfl (by omega) rfl rfl
  · exact claim8_approval.2.2.1 "0xeoa" "0.0.456858" "0.0.10082597" 1 6 8 1500 (1 / 100)
      1760227200000 ⟨.ok 900, .ok 5000000, .ok "0xa", .ok ⟨1, 5⟩, .ok "0xh", .ok ⟨1, 7⟩⟩
      5000000 (by decide) rfl (by rw [h1]; omega)
  · exact claim8_approval.2.2.2.1 "0xeoa" "0.0.456858" "0.0.10082597" 1 6 8 1500 (1 / 100)
      1760227200000 ⟨.ok 900, .ok 0, .ok "0xa", .ok ⟨1, 5⟩, .ok "0xh", .ok ⟨1, 7⟩⟩
      "0x000000000000000000000000000000000006f89a" "0x000000000000000000000000000000000099d925"
      900 0 "0xa" ⟨1, 5⟩
      (addrBytes 456858 ++ [0, 5, 220] ++ addrBytes 10082597) "0xh"
      (by decide) (by decide) (by decide) rfl rfl (by rw [h1]; omega) rfl rfl
      (by decide) rfl
  · exact claim8_approval.2.2.2.2 "0xeoa" "0.0.456858" "0.0.10082597" 1 6 8 1500 (1 / 100)
      1760227200000 ⟨.ok 900, .ok 0, .ok "0xa", .error "approval timed out", .ok "0xh", .ok ⟨1, 7⟩⟩
      "0x000000000000000000000000000000000006f89a" "0x000000000000000000000000000000000099d925"
      900 0 "0xa" "approval timed out"
      (by decide) (by decide) (by decide) rfl rfl (by rw [h1]; omega) rfl rfl

/-- Some step of a SaucerSwapV2Engine.swap attempt raised the exception
message m: endpoint resolution, the quoter call, the allowance read, the
approval broadcast or its receipt wait, path encoding, the swap
broadcast, or the receipt wait. -/
def ThrewV2 (tokenIn tokenOut : String) (fee : Nat) (env : EnvV2) (m : String) : Prop :=
  hedera_id_to_evm tokenIn = .error m ∨ hedera_id_to_evm tokenOut = .error m ∨
  env.quote = .error m ∨ env.allowance = .error m ∨ env.approveSend = .error m ∨
  env.approveWait = .error m ∨
  encode_path [if isHbarId tokenIn then WHBAR_ID else tokenIn,
               if isHbarId tokenOut then WHBAR_ID else tokenOut] [fee] = .error m ∨
  env.swapSend = .error m ∨ env.swapWait = .error m

/-- Some step of a swap_hbar_for_usdc attempt raised the message m. -/
def ThrewH (env : EnvH) (m : String) : Prop :=
  env.quote = .error m ∨ env.swapSend = .error m ∨ env.swapWait = .error m

/-- The failure-policy classification of a swap outcome: either the run
succeeded (receipt status 1, empty error, the broadcast hash recorded);
or the receipt carried a failure status and the result is success=false
with the non-empty transaction hash and the "Transaction reverted"
message; or an exception was thrown at some step and the result is
success=false with an empty hash and that exception's message. -/
def resultClassified (r : SwapResult) (wait : Except String Receipt)
    (threw : String → Prop) : Prop :=
  (r.success = true ∧ r.error = "" ∧ r.tx_hash ≠ "") ∨
  (r.success = false ∧ r.tx_hash ≠ "" ∧ r.error = "Transaction reverted" ∧
    ∃ rec, wait = .ok rec ∧ rec.status ≠ 1) ∨
  (r.success = false ∧ r.tx_hash = "" ∧ threw r.error)

theorem resolveAddr_error {b : Bool} {t m : String} (h : resolveAddr b t = .error m) :
    hedera_id_to_evm t = .error m := by
  cases b
  · simpa [resolveAddr] using h
  · simp [resolveAddr] at h

theorem stage_error {c : Bool} {addr : String} {raw : ℤ} {env : EnvV2} {m : String}
    (h : (if c then ((.ok () : Except String Unit), ([] : List Act))
        else allowanceStage addr raw env).1 = .error m) :
    env.allowance = .error m ∨ env.approveSend = .error m ∨ env.approveWait = .error m := by
  cases c
  · simp only [Bool.false_eq_true, if_false] at h
    unfold allowanceStage at h
    repeat' split at h
    all_goals simp_all
  · simp at h

/-- C2: the public swap operations never raise past their boundary —
for every environment the returned SwapResult is classified by
resultClassified: any exception thrown at any step is caught and
returned as success=false with the exception message in error and an
empty tx_hash, and a confirmed receipt with failure status yields
success=false with the non-empty broadcast hash.  (The hypothesis says
broadcast hashes are non-empty strings, which holds of the hex digest
of a 32-byte transaction hash.) -/
theorem claim2_error_boundary :
    (∀ (eoa tIn tOut : String) (amount : ℚ) (dIn dOut fee : Nat) (slip : ℚ)
        (nowMs : Nat) (env : EnvV2),
      (∀ h, env.swapSend = .ok h → h ≠ "") →
      resultClassified (swapV2 eoa tIn tOut amount dIn dOut fee slip nowMs env).result
        env.swapWait (ThrewV2 tIn tOut fee env)) ∧
    (∀ (eoa : String) (X slipPct : ℚ) (nowMs : Nat) (env : EnvH),
      (∀ h, env.swapSend = .ok h → h ≠ "") →
      resultClassified (swap_hbar_for_usdc eoa X slipPct nowMs env).result
        env.swapWait (ThrewH env)) := by
  constructor
  · intro eoa tIn tOut amount dIn dOut fee slip nowMs env hne
    simp only [swapV2]
    cases h1 : resolveAddr (isHbarId tIn) tIn with
    | error m =>
      simp only [h1]
      exact Or.inr (Or.inr ⟨rfl, rfl, Or.inl (resolveAddr_error h1)⟩)
    | ok addrIn =>
      simp only [h1]
      cases h2 : resolveAddr (isHbarId tOut) tOut with
      | error m =>
        simp only [h2]
        exact Or.inr (Or.inr ⟨rfl, rfl, Or.inr (Or.inl (resolveAddr_error h2))⟩)
      | ok addrOut =>
        simp only [h2]
        cases h3 : env.quote with
        | error m =>
          simp only [h3]
          exact Or.inr (Or.inr ⟨rfl, rfl, Or.inr (Or.inr (Or.inl h3))⟩)
        | ok E =>
          simp only [h3]
          cases h4 : (if isHbarId tIn then ((.ok () : Except String Unit), ([] : List Act))
              else allowanceStage addrIn (truncQ (amount * (10 : ℚ) ^ dIn)) env).1 with
          | error m =>
            simp only [h4]
            refine Or.inr (Or.inr ⟨rfl, rfl, ?_⟩)
            rcases stage_error h4 with h | h | h
            · exact Or.inr (Or.inr (Or.inr (Or.inl h)))
            · exact Or.inr (Or.inr (Or.inr (Or.inr (Or.inl h))))
            · exact Or.inr (Or.inr (Or.inr (Or.inr (Or.inr (Or.inl h)))))
          | ok u =>
            simp only [h4]
            cases h5 : encode_path [if isHbarId tIn then WHBAR_ID else tIn,
                if isHbarId tOut then WHBAR_ID else tOut] [fee] with
            | error m =>
              simp only [h5]
              exact Or.inr (Or.inr ⟨rfl, rfl,
                Or.inr (Or.inr (Or.inr (Or.inr (Or.inr (Or.inr (Or.inl h5))))))⟩)
            | ok p =>
              simp only [h5]
              cases h6 : env.swapSend with
              | error m =>
                simp only [h6]
                exact Or.inr (Or.inr ⟨rfl, rfl,
                  Or.inr (Or.inr (Or.inr (Or.inr (Or.inr (Or.inr (Or.inr (Or.inl h6)))))))⟩)
              | ok txh =>
                simp only [h6]
                cases h7 : env.swapWait with
                | error m =>
                  simp only [h7]
                  exact Or.inr (Or.inr ⟨rfl, rfl,
                    Or.inr (Or.inr (Or.inr (Or.inr (Or.inr (Or.inr (Or.inr (Or.inr h7)))))))⟩)
                | ok rec =>
                  simp only [h7]
                  by_cases hst : rec.status = 1
                  · rw [if_pos hst]
                    exact Or.inl ⟨rfl, rfl, hne txh h6⟩
                  · rw [if_neg hst]
                    exact Or.inr (Or.inl ⟨rfl, hne txh h6, rfl, rec, rfl, hst⟩)
  · intro eoa X slipPct nowMs env hne
    simp only [swap_hbar_for_usdc]
    cases h3 : env.quote with
    | error m =>
      simp only [h3]
      exact Or.inr (Or.inr ⟨rfl, rfl, Or.inl h3⟩)
    | ok E =>
      simp only [h3]
      cases h6 : env.swapSend with
      | error m =>
        simp only [h6]
        exact Or.inr (Or.inr ⟨rfl, rfl, Or.inr (Or.inl h6)⟩)
      | ok txh =>
        simp only [h6]
        cases h7 : env.swapWait with
        | error m =>
          simp only [h7]
          exact Or.inr (Or.inr ⟨rfl, rfl, Or.inr (Or.inr h7)⟩)
        | ok rec =>
          simp only [h7]
          by_cases hst : rec.status = 1
          · rw [if_pos hst]
            exact Or.inl ⟨rfl, rfl, hne txh h6⟩
          · rw [if_neg hst]
            exact Or.inr (Or.inl ⟨rfl, hne txh h6, rfl, rec, rfl, hst⟩)

/-- Witness for C2 at concrete runs of both engines. -/
theorem claim2_witness :
    resultClassified (swapV2 "0xeoa" "HBAR" "0.0.456858" 1 8 6 1500 (1 / 100) 0
        ⟨.error "quote failed", .ok 0, .ok "0xa", .ok ⟨1, 5⟩, .ok "0xh", .ok ⟨0, 7⟩⟩).result
      (EnvV2.swapWait ⟨.error "quote failed", .ok 0, .ok "0xa", .ok ⟨1, 5⟩, .ok "0xh", .ok ⟨0, 7⟩⟩)
      (ThrewV2 "HBAR" "0.0.456858" 1500
        ⟨.error "quote failed", .ok 0, .ok "0xa", .ok ⟨1, 5⟩, .ok "0xh", .ok ⟨0, 7⟩⟩) ∧
    resultClassified (swap_hbar_for_usdc "0xeoa" 1 2 0
        ⟨.ok 5000000, .ok "0xhash", .ok ⟨0, 77⟩⟩).result
      (EnvH.swapWait ⟨.ok 5000000, .ok "0xhash", .ok ⟨0, 77⟩⟩)
      (ThrewH ⟨.ok 5000000, .ok "0xhash", .ok ⟨0, 77⟩⟩) := by
  constructor
  · exact claim2_error_boundary.1 "0xeoa" "HBAR" "0.0.456858" 1 8 6 1500 (1 / 100) 0
      ⟨.error "quote failed", .ok 0, .ok "0xa", .ok ⟨1, 5⟩, .ok "0xh", .ok ⟨0, 7⟩⟩
      (by intro h hh; injection hh with h2; subst h2; decide)
  · exact claim2_error_boundary.2 "0xeoa" 1 2 0
      ⟨.ok 5000000, .ok "0xhash", .ok ⟨0, 77⟩⟩
      (by intro h hh; injection hh with h2; subst h2; decide)

end SSV
